import Mathlib

/-!
Verification of the chunk-journal writer (`journalWriter` in package `nbs`,
src/unnamed/part_000) against its natural-language specification.

The Go code is shallowly embedded: the writer is a record, byte buffers and
the pre-allocated journal file are `List Nat` (each element one byte value),
fallible syscalls are driven by an `IOEnv` telling which syscall classes
succeed, and every operation returns its Go results plus the list of file
syscalls it attempted (used to reason about flush/fsync/close ordering).
Offsets are `Nat`: `off` starts at 0 and only grows, and the `int64` range is
never approached (the file is 256 MiB).  The record codec, `readJournalRecord`
and `processJournalRecords` are not part of the given sources and are
modelled from the spec where noted.
-/

set_option maxHeartbeats 1000000

namespace ChunkJournal

/-- A byte value (Go `byte`).  Contents of buffers matter only structurally,
so plain `Nat` is used; encoders below only emit values `< 256`. -/
abbrev Byte := Nat

/-- Constant `chunkJournalFileSize = 256 * 1024 * 1024` (source line 30). -/
def chunkJournalFileSize : Nat := 256 * 1024 * 1024

/-- Constant `journalWriterBuffSize = 1024 * 1024` (source line 34). -/
def journalWriterBuffSize : Nat := 1024 * 1024

/-- The zero-fill batch size in `createJournalWriter` (source line 104). -/
def zeroFillBatch : Nat := 1024 * 1024

/-- Modelled from the spec: the chunk record kind tag.  The two kinds exist
per spec section 3; the concrete byte values are not fixed by the spec. -/
def chunkJournalRecKind : Nat := 2

/-- Modelled from the spec: the root-hash record kind tag. -/
def rootHashJournalRecKind : Nat := 1

/-- Abstract error kinds (spec section 7).  Syscall failures are split per
syscall so that "later errors override earlier ones" is observable. -/
inductive JErr where
  | oversizeRecord (n c : Nat)
  | writeFailed
  | syncFailed
  | closeFailed
  | readFailed
  | corruptRecord
  | addressMismatch
  | unknownRecordKind (k : Nat)
  | alreadyExists
  | isDirectory
deriving DecidableEq

/-- File syscalls a writer operation may attempt, in order. -/
inductive FOp where
  | writeAt
  | sync
  | fclose
deriving DecidableEq

/-- Which syscall classes succeed during an operation (fault model for the
underlying `*os.File`). -/
structure IOEnv where
  writeOk : Bool
  syncOk : Bool
  closeOk : Bool
  readOk : Bool
deriving DecidableEq

/-- The all-ok environment: every syscall succeeds. -/
def envOK : IOEnv := ⟨true, true, true, true⟩

/-- Structure `recLookup` (lookup index entry): `{journalOff, recordLen, payloadOff}`. -/
structure recLookup where
  journalOff : Nat
  recordLen : Nat
  payloadOff : Nat
deriving DecidableEq

/-- Structure `CompressedChunk`: an address together with its compressed payload.
Modelled from the spec (the chunk type itself is outside the given sources). -/
structure CompressedChunk where
  H : Nat
  payload : List Byte
deriving DecidableEq

/-- The zero value `CompressedChunk{}`. -/
def CompressedChunk.zero : CompressedChunk := ⟨0, []⟩

/-- A decoded journal record (`journalRec`).  Modelled from the spec framing
`[length | kind | address | payload | checksum]`. -/
structure journalRec where
  length : Nat
  kind : Nat
  address : Nat
  payload : List Byte
deriving DecidableEq

/-! ## Record codec, modelled from the spec (section 4.1)

The codec sources are not under src/; sizes and framing follow the spec:
a 4-byte length prefix, 1 kind byte, 20-byte address, payload, and a
trailing 4-byte checksum, so the payload starts at offset 25 and the
sizes below are `29 + len(payload)`. -/

def encodeU32 (n : Nat) : List Byte :=
  [n % 256, n / 256 % 256, n / 65536 % 256, n / 16777216 % 256]

def decodeU32 : List Byte → Nat
  | [a, b, c, d] => a + 256 * b + 65536 * c + 16777216 * d
  | _ => 0

def encodeAddr (a : Nat) : List Byte :=
  (List.range 20).map fun i => a / 256 ^ i % 256

def decodeAddr (bs : List Byte) : Nat :=
  bs.foldr (fun b acc => b + 256 * acc) 0

/-- Modelled from the spec: the trailing 32-bit record checksum; the concrete
checksum function is not given, a byte sum modulo `2^32` stands in. -/
def checksum (bs : List Byte) : Nat := bs.sum % 4294967296

def journalRecPayloadOff : Nat := 25

def journalRecMinSz : Nat := 29

/-- Function `chunkRecordSize(cc) → (total record length, payload offset in record)`. -/
def chunkRecordSize (cc : CompressedChunk) : Nat × Nat :=
  (journalRecMinSz + cc.payload.length, journalRecPayloadOff)

/-- Function `rootHashRecordSize() → total record length` (empty payload). -/
def rootHashRecordSize : Nat := journalRecMinSz

/-- Modelled from the spec: serialize a chunk record into its reservation. -/
def writeChunkRecord (cc : CompressedChunk) : List Byte :=
  let body := encodeU32 (journalRecMinSz + cc.payload.length) ++
    [chunkJournalRecKind] ++ encodeAddr cc.H ++ cc.payload
  body ++ encodeU32 (checksum body)

/-- Modelled from the spec: serialize a root-hash record (empty payload). -/
def writeRootHashRecord (a : Nat) : List Byte :=
  let body := encodeU32 journalRecMinSz ++ [rootHashJournalRecKind] ++ encodeAddr a
  body ++ encodeU32 (checksum body)

/-- A little-endian base-128 length header read from the compressed payload.
Modelled from the spec: the compression codec is an external collaborator
(spec section 1); only the decoded-size statistic is needed here. -/
def uvarint : List Byte → Nat
  | [] => 0
  | b :: bs => if b < 128 then b else b - 128 + 128 * uvarint bs

def journalRec.payloadOffset (_r : journalRec) : Nat := journalRecPayloadOff

def journalRec.uncompressedPayloadSize (r : journalRec) : Nat := uvarint r.payload

/-- Modelled from the spec: `read_journal_record(bytes)` decodes one framed
record, failing with `CorruptRecord` if the length or checksum is
inconsistent (spec section 4.1). -/
def readJournalRecord (buf : List Byte) : Except JErr journalRec :=
  if buf.length < journalRecMinSz then .error .corruptRecord
  else
    let len := decodeU32 (buf.take 4)
    if len ≠ buf.length then .error .corruptRecord
    else if decodeU32 (buf.drop (buf.length - 4)) ≠ checksum (buf.take (buf.length - 4)) then
      .error .corruptRecord
    else
      .ok { length := len, kind := buf.getD 4 0,
            address := decodeAddr ((buf.drop 5).take 20),
            payload := (buf.drop journalRecPayloadOff).take (buf.length - journalRecMinSz) }

/-! ## Writer state (source lines 138-146) -/

/-- The `journalWriter` state.  `bufCap` models `cap(wr.buf)` (the buffer is
allocated once with capacity `journalWriterBuffSize`); `file` is the byte
content of the pre-allocated journal file. -/
structure JournalWriter where
  buf : List Byte
  bufCap : Nat
  lookups : Nat → Option recLookup
  file : List Byte
  off : Nat
  uncmpSz : Nat

/-- Method `wr.offset()` (source lines 291-293): the logical end-of-journal offset. -/
def JournalWriter.offset (wr : JournalWriter) : Nat := wr.off + wr.buf.length

/-- Method `wr.CurrentSize()` (source lines 191-195): returns `wr.off`. -/
def CurrentSize (wr : JournalWriter) : Nat := wr.off

/-- The logical journal content: the flushed prefix of the file followed by
the unflushed buffer. -/
def logicalData (wr : JournalWriter) : List Byte := wr.file.take wr.off ++ wr.buf

/-! ## File syscall models -/

/-- Positional write: overwrite `data` at `off` (zero-padding any gap, as the
OS would for a sparse write; in this design `off + len(data)` always lies
inside the pre-allocated file). -/
def writeAtBytes (file : List Byte) (off : Nat) (data : List Byte) : List Byte :=
  file.take off ++ List.replicate (off - file.length) 0 ++ data ++ file.drop (off + data.length)

/-- Syscall `file.WriteAt(data, off)`.  An empty write performs no syscall and always
succeeds (the Go write loop body never runs); otherwise the outcome follows
`env.writeOk`. -/
def fileWriteAt (env : IOEnv) (file : List Byte) (data : List Byte) (off : Nat) :
    Except JErr (List Byte) × List FOp :=
  if data.isEmpty then (.ok file, [])
  else if env.writeOk then (.ok (writeAtBytes file off data), [.writeAt])
  else (.error .writeFailed, [.writeAt])

/-- Syscall `file.ReadAt` of `cnt` bytes at `off`: Go returns a non-nil error whenever
fewer than `cnt` bytes are read, so success requires the range to lie inside
the file and the device to be readable. -/
def fileReadAt (env : IOEnv) (file : List Byte) (cnt off : Nat) : Except JErr (List Byte) :=
  if env.readOk = true ∧ off + cnt ≤ file.length then .ok ((file.drop off).take cnt)
  else .error .readFailed

/-! ## Buffered appender (source lines 295-318) -/

/-- Method `wr.flush()` (source lines 311-318): write `buf` at `off`; on success
advance `off` by `len(buf)` and empty the buffer. -/
def flush (env : IOEnv) (wr : JournalWriter) :
    Except JErr Unit × JournalWriter × List FOp :=
  match fileWriteAt env wr.file wr.buf wr.off with
  | (.error e, tr) => (.error e, wr, tr)
  | (.ok f, tr) =>
      (.ok (), { wr with file := f, off := wr.off + wr.buf.length, buf := [] }, tr)

/-- Method `wr.getBytes(n)` (source lines 295-309): fail if `n` exceeds capacity;
flush first if `n` exceeds remaining room; then reserve `n` bytes at the
buffer tail (reserved bytes modelled as zeros; callers overwrite them before
the lock is released). -/
def getBytes (env : IOEnv) (wr : JournalWriter) (n : Nat) :
    Except JErr Unit × JournalWriter × List FOp :=
  if n > wr.bufCap then (.error (.oversizeRecord n wr.bufCap), wr, [])
  else if n > wr.bufCap - wr.buf.length then
    match flush env wr with
    | (.error e, wr1, tr) => (.error e, wr1, tr)
    | (.ok _, wr1, tr) => (.ok (), { wr1 with buf := wr1.buf ++ List.replicate n 0 }, tr)
  else (.ok (), { wr with buf := wr.buf ++ List.replicate n 0 }, [])

/-! ## Straddled reader (source lines 151-174) -/

/-- Outcome of a Go call that may also panic (slice-bounds violation). -/
inductive GoResult (α : Type) where
  | ok (a : α)
  | err (e : JErr)
  | panic
deriving DecidableEq

/-- Method `wr.ReadAt(p, off)` (source lines 151-174) for a destination of length
`pLen`: returns the bytes delivered.  When `off < wr.off` the prefix is read
from the file (a straddled read continues into `buf` from buffer offset 0);
otherwise the read is served from `buf` at `off - wr.off`, and the Go slice
expression `wr.buf[off:]` panics when that offset exceeds `len(buf)`. -/
def ReadAt (env : IOEnv) (wr : JournalWriter) (pLen off : Nat) : GoResult (List Byte) :=
  if off < wr.off then
    let fread := wr.off - off
    let fpart := min pLen fread
    match fileReadAt env wr.file fpart off with
    | .error e => .err e
    | .ok fb => .ok (fb ++ wr.buf.take (pLen - fpart))
  else
    let boff := off - wr.off
    if wr.buf.length < boff then .panic
    else .ok ((wr.buf.drop boff).take pLen)

/-! ## Remaining writer operations (source lines 176-289, 320-372) -/

/-- Method `wr.Snapshot()` (source lines 176-189): flush, then a limited reader over
an independent descriptor for `[0, off)`. -/
def Snapshot (env : IOEnv) (wr : JournalWriter) :
    Except JErr (List Byte × Nat) × JournalWriter × List FOp :=
  match flush env wr with
  | (.error e, wr1, tr) => (.error e, wr1, tr)
  | (.ok _, wr1, tr) => (.ok (wr1.file.take wr1.off, wr1.off), wr1, tr)

/-- Method `wr.Write(p)` (source lines 198-216, test-only helper): write directly to
the file when `len(p) > len(wr.buf)`, otherwise through a reservation. -/
def Write (env : IOEnv) (wr : JournalWriter) (p : List Byte) :
    Except JErr Nat × JournalWriter × List FOp :=
  if p.length > wr.buf.length then
    match flush env wr with
    | (.error e, wr1, tr) => (.error e, wr1, tr)
    | (.ok _, wr1, tr) =>
        match fileWriteAt env wr1.file p wr1.off with
        | (.error e, tr2) => (.error e, wr1, tr ++ tr2)
        | (.ok f, tr2) =>
            (.ok p.length, { wr1 with file := f, off := wr1.off + p.length }, tr ++ tr2)
  else
    match getBytes env wr p.length with
    | (.error e, wr1, tr) => (.error e, wr1, tr)
    | (.ok _, wr1, tr) =>
        (.ok p.length, { wr1 with buf := wr1.buf.take (wr1.buf.length - p.length) ++ p }, tr)

/-- Method `wr.WriteChunk(cc)` (source lines 243-259): compute the record size,
record the lookup entry at the pre-reservation logical offset, reserve,
serialize, and insert the entry. -/
def WriteChunk (env : IOEnv) (wr : JournalWriter) (cc : CompressedChunk) :
    Except JErr Unit × JournalWriter × List FOp :=
  match getBytes env wr (chunkRecordSize cc).1 with
  | (.error e, wr1, tr) => (.error e, wr1, tr)
  | (.ok _, wr1, tr) =>
      (.ok (),
       { wr1 with
           buf := wr1.buf.take (wr1.buf.length - (chunkRecordSize cc).1) ++ writeChunkRecord cc,
           lookups := fun a =>
             if a = cc.H then some ⟨wr.offset, (chunkRecordSize cc).1, (chunkRecordSize cc).2⟩
             else wr1.lookups a },
       tr)

/-- Method `wr.WriteRootHash(root)` (source lines 261-274): reserve and serialize a
root-hash record, then flush and fsync. -/
def WriteRootHash (env : IOEnv) (wr : JournalWriter) (root : Nat) :
    Except JErr Unit × JournalWriter × List FOp :=
  match getBytes env wr rootHashRecordSize with
  | (.error e, wr1, tr) => (.error e, wr1, tr)
  | (.ok _, wr1, tr) =>
      match flush env { wr1 with
          buf := wr1.buf.take (wr1.buf.length - rootHashRecordSize) ++
            writeRootHashRecord root } with
      | (.error e, wr3, tr2) => (.error e, wr3, tr ++ tr2)
      | (.ok _, wr3, tr2) =>
          if env.syncOk then (.ok (), wr3, tr ++ tr2 ++ [.sync])
          else (.error .syncFailed, wr3, tr ++ tr2 ++ [.sync])

/-- Method `wr.Close()` (source lines 276-289): flush, and if that fails return at
once; otherwise attempt `Sync` then `Close`, a later non-nil error
overwriting an earlier one. -/
def Close (env : IOEnv) (wr : JournalWriter) :
    Except JErr Unit × JournalWriter × List FOp :=
  match flush env wr with
  | (.error e, wr1, tr) => (.error e, wr1, tr)
  | (.ok _, wr1, tr) =>
      let r : Except JErr Unit :=
        if env.closeOk then (if env.syncOk then .ok () else .error .syncFailed)
        else .error .closeFailed
      (r, wr1, tr ++ [.sync, .fclose])

/-- Modelled from the spec: `NewCompressedChunk` wraps a payload as the
compressed chunk for the given hash (spec section 4.2). -/
def NewCompressedChunk (h : Nat) (payload : List Byte) : Except JErr CompressedChunk :=
  .ok ⟨h, payload⟩

/-- Method `wr.getCompressed(h)` (source lines 338-360), embedded exactly as
written: an absent address yields the zero chunk with nil error, and a
failing `ReadAt` is also turned into `(CompressedChunk{}, nil)`. -/
def getCompressed (env : IOEnv) (wr : JournalWriter) (h : Nat) : GoResult CompressedChunk :=
  match wr.lookups h with
  | none => .ok CompressedChunk.zero
  | some l =>
      match ReadAt env wr l.recordLen l.journalOff with
      | .panic => .panic
      | .err _ => .ok CompressedChunk.zero
      | .ok bytes =>
          let b := bytes ++ List.replicate (l.recordLen - bytes.length) 0
          match readJournalRecord b with
          | .error e => .err e
          | .ok r =>
              if h ≠ r.address then .err .addressMismatch
              else
                match NewCompressedChunk h r.payload with
                | .error e => .err e
                | .ok c => .ok c

/-! ## Replay / recovery (source lines 218-241; scanner modelled from spec 4.1) -/

/-- Modelled from the spec: `process_journal_records(reader, cb) → end_offset`
(spec section 4.1) forward-scans the decoded records from offset 0, advancing
by each record's encoded length; the scan stops at the first invalid framing
(the input list ends there) and reports the offset reached; a callback error
stops the scan and is propagated.  The callback state is threaded explicitly
(the Go callback is a closure mutating the writer). -/
def processJournalRecords (σ : Type) (cb : σ → Nat → journalRec → Except JErr σ) :
    σ → Nat → List journalRec → σ × Nat × Option JErr
  | s, o, [] => (s, o, none)
  | s, o, r :: rs =>
      match cb s o r with
      | .error e => (s, o, some e)
      | .ok s' => processJournalRecords σ cb s' (o + r.length) rs

/-- The callback state of `ProcessJournal`: the lookup map, `uncmpSz`, and
the last-root candidate. -/
abbrev PJState := (Nat → Option recLookup) × Nat × Nat

/-- Constant `2 ^ 64`, the modulus of Go's `uint64` arithmetic on `wr.uncmpSz`. -/
def M64 : Nat := 18446744073709551616

/-- The `ProcessJournal` callback (source lines 221-236): a chunk record
inserts a lookup entry and adds the uncompressed payload size; a root-hash
record overwrites the last-root candidate; any other kind fails. -/
def journalCallback (st : PJState) (o : Nat) (r : journalRec) : Except JErr PJState :=
  let lk := st.1
  let usz := st.2.1
  let last := st.2.2
  if r.kind = chunkJournalRecKind then
    .ok (fun a => if a = r.address then
            some ⟨o, r.length, r.payloadOffset⟩ else lk a,
         (usz + r.uncompressedPayloadSize) % M64, last)
  else if r.kind = rootHashJournalRecKind then
    .ok (lk, usz, r.address)
  else .error (.unknownRecordKind r.kind)

/-- Method `wr.ProcessJournal` (source lines 218-241): run the scan from offset 0,
assign the reached offset to `wr.off`, and return the last root (zero hash
when none was scanned, and also on error together with the error). -/
def ProcessJournal (wr : JournalWriter) (recs : List journalRec) :
    Nat × Option JErr × JournalWriter :=
  match processJournalRecords PJState journalCallback (wr.lookups, wr.uncmpSz, 0) 0 recs with
  | ((lk, usz, last), endOff, none) =>
      (last, none, { wr with lookups := lk, uncmpSz := usz, off := endOff })
  | ((lk, usz, _), endOff, some e) =>
      (0, some e, { wr with lookups := lk, uncmpSz := usz, off := endOff })

/-! ## Lifecycle (source lines 62-126) -/

/-- A file-system entry: a regular file with its content, or a directory. -/
inductive FsEntry where
  | file (content : List Byte)
  | dir

/-- The file system as a map from (absolute) path identifiers to entries. -/
def Fs := Nat → Option FsEntry

/-- The empty file system. -/
def fsEmpty : Fs := fun _ => none

/-- A fresh writer over the given file content (source lines 80-85, 120-125):
empty buffer of capacity `journalWriterBuffSize`, empty lookups, offset 0. -/
def mkJournalWriter (content : List Byte) : JournalWriter :=
  { buf := [], bufCap := journalWriterBuffSize, lookups := fun _ => none,
    file := content, off := 0, uncmpSz := 0 }

/-- The zero-fill loop of `createJournalWriter` (source lines 104-110):
`for i := 0; i < chunkJournalFileSize; i += batch` appends one zero batch per
iteration; with `batch` dividing the size it runs `size / batch` times. -/
def zeroFillBatches : Nat → List Byte
  | 0 => []
  | n + 1 => zeroFillBatches n ++ List.replicate zeroFillBatch 0

/-- Number of iterations of the zero-fill loop. -/
def numZeroBatches : Nat := chunkJournalFileSize / zeroFillBatch

/-- Function `createJournalWriter` (source lines 88-126): `os.Stat` succeeding — for a
regular file or a directory alike — aborts with the "already exists" error;
otherwise the file is created, zero-filled batch by batch, synced, rewound,
and the writer constructed. -/
def createJournalWriter (fs : Fs) (path : Nat) :
    Except JErr (JournalWriter × Fs) :=
  match fs path with
  | some _ => .error .alreadyExists
  | none =>
      let content := zeroFillBatches numZeroBatches
      .ok (mkJournalWriter content,
           fun p => if p = path then some (.file content) else fs p)

/-- Function `openJournalWriter` (source lines 62-86): `(writer?, exists, error?)`.
An absent path is not an error; a directory reports `exists` with the
is-directory error; an existing file yields a fresh writer over it. -/
def openJournalWriter (fs : Fs) (path : Nat) :
    Option JournalWriter × Bool × Option JErr :=
  match fs path with
  | none => (none, false, none)
  | some .dir => (none, true, some .isDirectory)
  | some (.file content) => (some (mkJournalWriter content), true, none)

/-! ## Operation sequences -/

/-- A mutating operation on an open writer. -/
inductive JOp where
  | flushOp
  | reserve (n : Nat)
  | wchunk (cc : CompressedChunk)
  | wroot (a : Nat)
  | closeOp
  | snapshotOp
  | writeOp (p : List Byte)

/-- Run one operation, keeping the resulting state and syscall trace. -/
def runOp (env : IOEnv) (wr : JournalWriter) : JOp → JournalWriter × List FOp
  | .flushOp => ((flush env wr).2.1, (flush env wr).2.2)
  | .reserve n => ((getBytes env wr n).2.1, (getBytes env wr n).2.2)
  | .wchunk cc => ((WriteChunk env wr cc).2.1, (WriteChunk env wr cc).2.2)
  | .wroot a => ((WriteRootHash env wr a).2.1, (WriteRootHash env wr a).2.2)
  | .closeOp => ((Close env wr).2.1, (Close env wr).2.2)
  | .snapshotOp => ((Snapshot env wr).2.1, (Snapshot env wr).2.2)
  | .writeOp p => ((Write env wr p).2.1, (Write env wr p).2.2)

/-- Run a sequence of operations, keeping the final state. -/
def runOps (env : IOEnv) (wr : JournalWriter) (ops : List JOp) : JournalWriter :=
  ops.foldl (fun w op => (runOp env w op).1) wr

/-- A record-producing write, as surfaced to callers. -/
inductive WOp where
  | wc (cc : CompressedChunk)
  | wrh (a : Nat)

/-- The encoded length of the record a write produces. -/
def encLen : WOp → Nat
  | .wc cc => (chunkRecordSize cc).1
  | .wrh _ => rootHashRecordSize

/-- Dispatch one record write. -/
def runWrite (env : IOEnv) (wr : JournalWriter) :
    WOp → Except JErr Unit × JournalWriter × List FOp
  | .wc cc => WriteChunk env wr cc
  | .wrh a => WriteRootHash env wr a

/-- Run a sequence of record writes, stopping at the first error. -/
def runWrites (env : IOEnv) (wr : JournalWriter) : List WOp → Except JErr JournalWriter
  | [] => .ok wr
  | op :: ops =>
      match runWrite env wr op with
      | (.ok _, wr', _) => runWrites env wr' ops
      | (.error e, _, _) => .error e

/-- Predicate: `old` is an initial segment of `new`: nothing previously buffered was
removed, bytes were only appended. -/
def bufExtends (old new : List Byte) : Prop :=
  new.take old.length = old ∧ old.length ≤ new.length

instance (old new : List Byte) : Decidable (bufExtends old new) := by
  unfold bufExtends; infer_instance

/-! ## Specification-side descriptions of the replay scan (for section 4.6
claims); these recompute the expected outcome independently of the
callback-threading in `ProcessJournal`. -/

def isRootRec (r : journalRec) : Bool := r.kind == rootHashJournalRecKind

def isChunkRec (r : journalRec) : Bool := r.kind == chunkJournalRecKind

def knownKind (r : journalRec) : Bool := isChunkRec r || isRootRec r

/-- Total encoded length of a record list: the offset at which the scan of a
journal holding exactly these records stops. -/
def sumRecLens (recs : List journalRec) : Nat := (recs.map journalRec.length).sum

/-- The address of the last root-hash record, or the default when none. -/
def lastRootAddr (recs : List journalRec) (d : Nat) : Nat :=
  match recs.reverse.find? isRootRec with
  | some r => r.address
  | none => d

/-- Total uncompressed payload size over the chunk records. -/
def chunkUncmpSum (recs : List journalRec) : Nat :=
  ((recs.filter isChunkRec).map journalRec.uncompressedPayloadSize).sum

/-- The lookup entry for address `a` after scanning `recs` laid out starting
at offset `o`: the entry of the last chunk record addressed `a`, if any. -/
def lastChunkAt (a : Nat) : Nat → List journalRec → Option recLookup
  | _, [] => none
  | o, r :: rs =>
      match lastChunkAt a (o + r.length) rs with
      | some e => some e
      | none =>
          if isChunkRec r && r.address == a then
            some ⟨o, r.length, journalRecPayloadOff⟩
          else none

/-! ## Helper lemmas about the primitive operations -/

/-- Closed form of `flush`. -/
theorem flush_eq (env : IOEnv) (wr : JournalWriter) :
    flush env wr =
      if wr.buf.isEmpty then
        (.ok (), { wr with off := wr.off + wr.buf.length, buf := [] }, [])
      else if env.writeOk then
        (.ok (),
         { wr with
             file := writeAtBytes wr.file wr.off wr.buf,
             off := wr.off + wr.buf.length,
             buf := [] },
         [FOp.writeAt])
      else (.error .writeFailed, wr, [FOp.writeAt]) := by
  unfold flush fileWriteAt
  by_cases hb : wr.buf.isEmpty
  · simp [hb]
  · by_cases hw : env.writeOk <;> simp [hb, hw]

/-- Closed form of `getBytes`. -/
theorem getBytes_eq (env : IOEnv) (wr : JournalWriter) (n : Nat) :
    getBytes env wr n =
      if n > wr.bufCap then (.error (.oversizeRecord n wr.bufCap), wr, [])
      else if n > wr.bufCap - wr.buf.length then
        (if wr.buf.isEmpty then
          (.ok (), { wr with off := wr.off + wr.buf.length, buf := List.replicate n 0 }, [])
        else if env.writeOk then
          (.ok (),
           { wr with
               file := writeAtBytes wr.file wr.off wr.buf,
               off := wr.off + wr.buf.length,
               buf := List.replicate n 0 },
           [FOp.writeAt])
        else (.error .writeFailed, wr, [FOp.writeAt]))
      else (.ok (), { wr with buf := wr.buf ++ List.replicate n 0 }, []) := by
  unfold getBytes
  rw [flush_eq]
  by_cases h1 : n > wr.bufCap
  · simp [h1]
  · by_cases h2 : n > wr.bufCap - wr.buf.length
    · by_cases hb : wr.buf.isEmpty
      · simp [h1, h2, hb]
      · by_cases hw : env.writeOk <;> simp [h1, h2, hb, hw]
    · simp [h1, h2]

theorem flush_err_state (env : IOEnv) (wr : JournalWriter) (e : JErr)
    (h : (flush env wr).1 = .error e) : (flush env wr).2.1 = wr := by
  rw [flush_eq] at h ⊢
  by_cases hb : wr.buf.isEmpty
  · simp [hb] at h
  · by_cases hw : env.writeOk
    · simp [hb, hw] at h
    · simp [hb, hw]

theorem getBytes_pres (env : IOEnv) (wr : JournalWriter) (n : Nat) :
    (getBytes env wr n).2.1.bufCap = wr.bufCap ∧
    (getBytes env wr n).2.1.uncmpSz = wr.uncmpSz ∧
    (getBytes env wr n).2.1.lookups = wr.lookups := by
  rw [getBytes_eq]
  by_cases h1 : n > wr.bufCap
  · simp [h1]
  · by_cases h2 : n > wr.bufCap - wr.buf.length
    · by_cases hb : wr.buf.isEmpty
      · simp [h1, h2, hb]
      · by_cases hw : env.writeOk <;> simp [h1, h2, hb, hw]
    · simp [h1, h2]

theorem getBytes_ok_spec (env : IOEnv) (wr : JournalWriter) (n : Nat)
    (h : (getBytes env wr n).1 = .ok ()) :
    ((getBytes env wr n).2.1.buf = wr.buf ++ List.replicate n 0 ∧
      (getBytes env wr n).2.1.off = wr.off ∧
      (getBytes env wr n).2.2 = []) ∨
    ((getBytes env wr n).2.1.buf = List.replicate n 0 ∧
      (getBytes env wr n).2.1.off = wr.off + wr.buf.length ∧
      (getBytes env wr n).2.2 = [FOp.writeAt] ∧ wr.buf ≠ []) := by
  rw [getBytes_eq] at h ⊢
  by_cases h1 : n > wr.bufCap
  · simp [h1] at h
  · by_cases h2 : n > wr.bufCap - wr.buf.length
    · by_cases hb : wr.buf.isEmpty
      · left
        have hb' : wr.buf = [] := by simpa using hb
        simp [h1, h2, hb, hb']
      · by_cases hw : env.writeOk
        · right
          have hb' : wr.buf ≠ [] := by simpa using hb
          simp [h1, h2, hb, hw, hb']
        · simp [h1, h2, hb, hw] at h
    · left; simp [h1, h2]

theorem getBytes_ok_offset (env : IOEnv) (wr : JournalWriter) (n : Nat)
    (h : (getBytes env wr n).1 = .ok ()) :
    (getBytes env wr n).2.1.offset = wr.offset + n := by
  rcases getBytes_ok_spec env wr n h with ⟨hb, ho, _⟩ | ⟨hb, ho, _, _⟩ <;>
    (first
      | (simp [JournalWriter.offset, hb, ho]; omega)
      | simp [JournalWriter.offset, hb, ho])

theorem getBytes_err_state (env : IOEnv) (wr : JournalWriter) (n : Nat) (e : JErr)
    (h : (getBytes env wr n).1 = .error e) : (getBytes env wr n).2.1 = wr := by
  rw [getBytes_eq] at h ⊢
  by_cases h1 : n > wr.bufCap
  · simp [h1]
  · by_cases h2 : n > wr.bufCap - wr.buf.length
    · by_cases hb : wr.buf.isEmpty
      · simp [h1, h2, hb] at h
      · by_cases hw : env.writeOk
        · simp [h1, h2, hb, hw] at h
        · simp [h1, h2, hb, hw]
    · simp [h1, h2] at h

theorem flush_ok_iff (env : IOEnv) (wr : JournalWriter) :
    (flush env wr).1 = .ok () ↔ (wr.buf.isEmpty ∨ env.writeOk = true) := by
  rw [flush_eq]
  by_cases hb : wr.buf.isEmpty
  · simp [hb]
  · by_cases hw : env.writeOk <;> simp [hb, hw]

/-- Closed form of `Close`. -/
theorem Close_eq (env : IOEnv) (wr : JournalWriter) :
    Close env wr =
      if wr.buf.isEmpty ∨ env.writeOk = true then
        ((if env.closeOk then (if env.syncOk then .ok () else .error .syncFailed)
          else .error .closeFailed),
         (flush env wr).2.1,
         (if wr.buf.isEmpty then ([] : List FOp) else [FOp.writeAt]) ++ [FOp.sync, FOp.fclose])
      else (.error .writeFailed, wr, [FOp.writeAt]) := by
  unfold Close
  rw [flush_eq]
  by_cases hb : wr.buf.isEmpty
  · simp [flush_eq, hb]
  · by_cases hw : env.writeOk <;> simp [flush_eq, hb, hw]

theorem writeChunkRecord_length (cc : CompressedChunk) :
    (writeChunkRecord cc).length = (chunkRecordSize cc).1 := by
  unfold writeChunkRecord chunkRecordSize encodeU32 encodeAddr journalRecMinSz
  simp
  omega

theorem writeRootHashRecord_length (a : Nat) :
    (writeRootHashRecord a).length = rootHashRecordSize := by
  unfold writeRootHashRecord rootHashRecordSize encodeU32 encodeAddr journalRecMinSz
  simp

theorem getBytes_trace (env : IOEnv) (wr : JournalWriter) (n : Nat) :
    (getBytes env wr n).2.2 = [] ∨ (getBytes env wr n).2.2 = [FOp.writeAt] := by
  rw [getBytes_eq]
  by_cases h1 : n > wr.bufCap
  · simp [h1]
  · by_cases h2 : n > wr.bufCap - wr.buf.length
    · by_cases hb : wr.buf.isEmpty
      · simp [h1, h2, hb]
      · by_cases hw : env.writeOk <;> simp [h1, h2, hb, hw]
    · simp [h1, h2]

theorem WriteChunk_trace (env : IOEnv) (wr : JournalWriter) (cc : CompressedChunk) :
    (WriteChunk env wr cc).2.2 = (getBytes env wr (chunkRecordSize cc).1).2.2 := by
  unfold WriteChunk
  rcases hg : getBytes env wr (chunkRecordSize cc).1 with ⟨r, wr1, tr⟩
  cases r <;> simp [hg]

theorem WriteChunk_ok_spec (env : IOEnv) (wr : JournalWriter) (cc : CompressedChunk)
    (h : (WriteChunk env wr cc).1 = .ok ()) :
    (WriteChunk env wr cc).2.1.lookups cc.H =
      some ⟨wr.offset, (chunkRecordSize cc).1, (chunkRecordSize cc).2⟩ ∧
    (∀ a, a ≠ cc.H → (WriteChunk env wr cc).2.1.lookups a = wr.lookups a) ∧
    (WriteChunk env wr cc).2.1.offset = wr.offset + (chunkRecordSize cc).1 ∧
    (WriteChunk env wr cc).2.1.bufCap = wr.bufCap ∧
    (WriteChunk env wr cc).2.1.uncmpSz = wr.uncmpSz := by
  unfold WriteChunk at h ⊢
  rcases hg : getBytes env wr (chunkRecordSize cc).1 with ⟨r, wr1, tr⟩
  rw [hg] at h
  cases r with
  | error e => simp at h
  | ok u =>
      have hpres0 := getBytes_pres env wr (chunkRecordSize cc).1
      rw [hg] at hpres0
      have hpres : wr1.bufCap = wr.bufCap ∧ wr1.uncmpSz = wr.uncmpSz ∧
          wr1.lookups = wr.lookups := hpres0
      have hoff0 := getBytes_ok_offset env wr (chunkRecordSize cc).1 (by rw [hg])
      rw [hg] at hoff0
      have hoff : wr1.off + wr1.buf.length = wr.offset + (chunkRecordSize cc).1 := hoff0
      have hspec0 := getBytes_ok_spec env wr (chunkRecordSize cc).1 (by rw [hg])
      rw [hg] at hspec0
      have hspec : (wr1.buf = wr.buf ++ List.replicate (chunkRecordSize cc).1 0 ∧
            wr1.off = wr.off ∧ tr = []) ∨
          (wr1.buf = List.replicate (chunkRecordSize cc).1 0 ∧
            wr1.off = wr.off + wr.buf.length ∧ tr = [FOp.writeAt] ∧ wr.buf ≠ []) := hspec0
      have hlen : (chunkRecordSize cc).1 ≤ wr1.buf.length := by
        rcases hspec with ⟨hb, _, _⟩ | ⟨hb, _, _, _⟩ <;> simp [hb]
      refine ⟨?_, ?_, ?_, ?_, ?_⟩
      · show (if cc.H = cc.H then
            some (⟨wr.offset, (chunkRecordSize cc).1, (chunkRecordSize cc).2⟩ : recLookup)
          else wr1.lookups cc.H) = _
        simp
      · intro a ha
        show (if a = cc.H then
            some (⟨wr.offset, (chunkRecordSize cc).1, (chunkRecordSize cc).2⟩ : recLookup)
          else wr1.lookups a) = wr.lookups a
        rw [if_neg ha, hpres.2.2]
      · show wr1.off + (wr1.buf.take (wr1.buf.length - (chunkRecordSize cc).1) ++
            writeChunkRecord cc).length = wr.offset + (chunkRecordSize cc).1
        have h1 : (wr1.buf.take (wr1.buf.length - (chunkRecordSize cc).1)).length =
            wr1.buf.length - (chunkRecordSize cc).1 := by
          rw [List.length_take]; omega
        rw [List.length_append, h1, writeChunkRecord_length]
        omega
      · exact hpres.1
      · exact hpres.2.1

theorem WriteRootHash_ok_spec (env : IOEnv) (wr : JournalWriter) (root : Nat)
    (h : (WriteRootHash env wr root).1 = .ok ()) :
    (WriteRootHash env wr root).2.1.buf = [] ∧
    (WriteRootHash env wr root).2.1.off = wr.offset + rootHashRecordSize ∧
    env.syncOk = true ∧
    ((WriteRootHash env wr root).2.2 = [FOp.writeAt, FOp.sync] ∨
      (WriteRootHash env wr root).2.2 = [FOp.writeAt, FOp.writeAt, FOp.sync]) ∧
    (WriteRootHash env wr root).2.1.lookups = wr.lookups ∧
    (WriteRootHash env wr root).2.1.bufCap = wr.bufCap ∧
    (WriteRootHash env wr root).2.1.uncmpSz = wr.uncmpSz := by
  unfold WriteRootHash at h ⊢
  rcases hg : getBytes env wr rootHashRecordSize with ⟨r, wr1, tr⟩
  rw [hg] at h
  cases r with
  | error e => simp at h
  | ok u =>
      have hpres0 := getBytes_pres env wr rootHashRecordSize
      rw [hg] at hpres0
      have hpres : wr1.bufCap = wr.bufCap ∧ wr1.uncmpSz = wr.uncmpSz ∧
          wr1.lookups = wr.lookups := hpres0
      have hoff0 := getBytes_ok_offset env wr rootHashRecordSize (by rw [hg])
      rw [hg] at hoff0
      have hoff : wr1.off + wr1.buf.length = wr.offset + rootHashRecordSize := hoff0
      have hspec0 := getBytes_ok_spec env wr rootHashRecordSize (by rw [hg])
      rw [hg] at hspec0
      have hspec : (wr1.buf = wr.buf ++ List.replicate rootHashRecordSize 0 ∧
            wr1.off = wr.off ∧ tr = []) ∨
          (wr1.buf = List.replicate rootHashRecordSize 0 ∧
            wr1.off = wr.off + wr.buf.length ∧ tr = [FOp.writeAt] ∧ wr.buf ≠ []) := hspec0
      have hlen : rootHashRecordSize ≤ wr1.buf.length := by
        rcases hspec with ⟨hb, _, _⟩ | ⟨hb, _, _, _⟩ <;>
          simp [hb, rootHashRecordSize, journalRecMinSz]
      have hb2len : (wr1.buf.take (wr1.buf.length - rootHashRecordSize) ++
          writeRootHashRecord root).length = wr1.buf.length := by
        simp only [List.length_append, List.length_take, writeRootHashRecord_length]
        omega
      have hb2ne : wr1.buf.take (wr1.buf.length - rootHashRecordSize) ++
          writeRootHashRecord root ≠ [] := by
        intro hcon
        have hcl := congrArg List.length hcon
        rw [hb2len] at hcl
        simp only [List.length_nil] at hcl
        have hpos : (0:Nat) < rootHashRecordSize := by
          simp [rootHashRecordSize, journalRecMinSz]
        omega
      have hbe : (wr1.buf.take (wr1.buf.length - rootHashRecordSize) ++
          writeRootHashRecord root).isEmpty = false := by
        simpa [List.isEmpty_iff] using hb2ne
      rcases hf : flush env { wr1 with
          buf := wr1.buf.take (wr1.buf.length - rootHashRecordSize) ++
            writeRootHashRecord root } with ⟨r2, wr3, tr2⟩
      simp only [hf] at h ⊢
      cases r2 with
      | error e2 => simp at h
      | ok u2 =>
          rw [flush_eq] at hf
          simp only [hbe, Bool.false_eq_true, if_false] at hf
          by_cases hw : env.writeOk
          · simp only [hw, if_true, Prod.mk.injEq] at hf
            obtain ⟨-, hst, htr2⟩ := hf
            subst hst
            subst htr2
            by_cases hs : env.syncOk
            · simp only [hs, if_true] at h ⊢
              refine ⟨by trivial, ?_, by trivial, ?_, by simp [hpres.2.2], by simp [hpres.1],
                by simp [hpres.2.1]⟩
              · show wr1.off + (wr1.buf.take (wr1.buf.length - rootHashRecordSize) ++
                    writeRootHashRecord root).length = wr.offset + rootHashRecordSize
                rw [hb2len]
                exact hoff
              · rcases hspec with ⟨_, _, ht⟩ | ⟨_, _, ht, _⟩ <;> simp [ht]
            · simp [hs] at h
          · simp [hw] at hf

/-! ## Claim C6 -/

/-- C6: `write_root_hash` reserves and writes a root-hash record and then
flushes the buffer and fsyncs the file before returning successfully: on
success the buffer is empty, the logical offset advanced by the record size,
the syscall trace is (an optional reservation flush followed by) the flush
and then the final fsync, which is the last syscall; `write_chunk` performs
no flush or fsync of its own — its trace never contains a sync (or close)
and is at most the single reservation flush — it only reserves, serializes,
and inserts the lookup entry.  Hence `write_root_hash` is the sole
durability barrier exposed to callers. -/
theorem claim6_root_hash_durability_barrier (env : IOEnv) (wr : JournalWriter)
    (root : Nat) (cc : CompressedChunk) :
    ((WriteRootHash env wr root).1 = .ok () →
      (WriteRootHash env wr root).2.1.buf = [] ∧
      env.syncOk = true ∧
      ((WriteRootHash env wr root).2.2 = [FOp.writeAt, FOp.sync] ∨
        (WriteRootHash env wr root).2.2 = [FOp.writeAt, FOp.writeAt, FOp.sync]) ∧
      (WriteRootHash env wr root).2.2.getLast? = some FOp.sync ∧
      (WriteRootHash env wr root).2.1.off = wr.offset + rootHashRecordSize) ∧
    (FOp.sync ∉ (WriteChunk env wr cc).2.2 ∧ FOp.fclose ∉ (WriteChunk env wr cc).2.2 ∧
      ((WriteChunk env wr cc).2.2 = [] ∨ (WriteChunk env wr cc).2.2 = [FOp.writeAt]) ∧
      ((WriteChunk env wr cc).1 = .ok () →
        (WriteChunk env wr cc).2.1.lookups cc.H =
          some ⟨wr.offset, (chunkRecordSize cc).1, (chunkRecordSize cc).2⟩ ∧
        (WriteChunk env wr cc).2.1.offset = wr.offset + (chunkRecordSize cc).1)) := by
  constructor
  · intro hok
    have hs := WriteRootHash_ok_spec env wr root hok
    have hlast : (WriteRootHash env wr root).2.2.getLast? = some FOp.sync := by
      rcases hs.2.2.2.1 with ht | ht <;> rw [ht] <;> rfl
    exact ⟨hs.1, hs.2.2.1, hs.2.2.2.1, hlast, hs.2.1⟩
  · have htr := WriteChunk_trace env wr cc
    have hgt := getBytes_trace env wr (chunkRecordSize cc).1
    rw [← htr] at hgt
    refine ⟨?_, ?_, hgt, ?_⟩
    · rcases hgt with ht | ht <;> rw [ht] <;> simp
    · rcases hgt with ht | ht <;> rw [ht] <;> simp
    · intro hok
      have hs := WriteChunk_ok_spec env wr cc hok
      exact ⟨hs.1, hs.2.2.1⟩

/-- A fresh writer over a small journal file, for concrete evaluation. -/
def c6Writer : JournalWriter := mkJournalWriter (List.replicate 64 0)

theorem claim6_witness :
    (WriteRootHash envOK c6Writer 3).1 = .ok () ∧
    (WriteRootHash envOK c6Writer 3).2.2.getLast? = some FOp.sync ∧
    (WriteRootHash envOK c6Writer 3).2.1.buf = [] ∧
    FOp.sync ∉ (WriteChunk envOK c6Writer ⟨9, [7]⟩).2.2 := by
  have hok : (WriteRootHash envOK c6Writer 3).1 = .ok () := by rfl
  have h := claim6_root_hash_durability_barrier envOK c6Writer 3 ⟨9, [7]⟩
  exact ⟨hok, (h.1 hok).2.2.2.1, (h.1 hok).1, h.2.1⟩

/-! ## Claim C10 -/

/-- C10: for every address absent from the lookup index, `getCompressed`
returns the zero-valued `CompressedChunk` together with a nil error —
absence at this interface is an empty result, never an error. -/
theorem claim10_absent_address_zero_chunk (env : IOEnv) (wr : JournalWriter) (h : Nat)
    (habs : wr.lookups h = none) :
    getCompressed env wr h = .ok CompressedChunk.zero := by
  unfold getCompressed
  rw [habs]

theorem claim10_witness :
    (mkJournalWriter []).lookups 7 = none ∧
    getCompressed envOK (mkJournalWriter []) 7 = .ok CompressedChunk.zero :=
  ⟨rfl, claim10_absent_address_zero_chunk envOK (mkJournalWriter []) 7 rfl⟩

/-! ## Claim C3 -/

/-- A faulty-disk environment: positional reads fail. -/
def c3Env : IOEnv := ⟨true, true, true, false⟩

/-- A writer holding a lookup entry for address 5 whose record lies in the
flushed region, so `getCompressed 5` goes through the straddled read. -/
def c3Writer : JournalWriter :=
  { buf := [], bufCap := 8,
    lookups := fun a => if a = 5 then some ⟨0, 29, 25⟩ else none,
    file := List.replicate 200 0, off := 100, uncmpSz := 0 }

/-- C3 (code bug): the address 5 is present in the index and the underlying
positional read fails, yet `getCompressed` returns the zero chunk with a nil
error — the `ReadAt` failure is swallowed into a successful empty result
instead of being propagated, contradicting the stated propagation policy
(spec section 7) which the rest of the function follows. -/
theorem claim3_read_error_swallowed :
    c3Writer.lookups 5 = some ⟨0, 29, 25⟩ ∧
    ReadAt c3Env c3Writer 29 0 = .err .readFailed ∧
    getCompressed c3Env c3Writer 5 = .ok CompressedChunk.zero :=
  ⟨rfl, rfl, rfl⟩

/-! ## Claim C2 -/

/-- C2 (amended): `Close` attempts the flush first and, if the flush fails,
returns that error at once without attempting `Sync` or file close; once the
flush succeeds, both `Sync` and close are attempted regardless of individual
failures and the last non-nil error wins (a close error overrides a sync
error). -/
theorem claim2_close_shutdown_steps (env : IOEnv) (wr : JournalWriter) :
    ((flush env wr).1 = .ok () →
      FOp.sync ∈ (Close env wr).2.2 ∧ FOp.fclose ∈ (Close env wr).2.2 ∧
      (env.closeOk = false → (Close env wr).1 = .error .closeFailed) ∧
      (env.closeOk = true → env.syncOk = false → (Close env wr).1 = .error .syncFailed) ∧
      (env.closeOk = true → env.syncOk = true → (Close env wr).1 = .ok ())) ∧
    (∀ e, (flush env wr).1 = .error e →
      (Close env wr).1 = .error e ∧
      FOp.sync ∉ (Close env wr).2.2 ∧ FOp.fclose ∉ (Close env wr).2.2) := by
  constructor
  · intro hok
    rw [flush_ok_iff] at hok
    rw [Close_eq]
    simp only [hok, if_true]
    refine ⟨by simp, by simp, ?_, ?_, ?_⟩
    · intro hc; simp [hc]
    · intro hc hs; simp [hc, hs]
    · intro hc hs; simp [hc, hs]
  · intro e he
    have hnot : ¬(wr.buf.isEmpty ∨ env.writeOk = true) := by
      intro hok
      rw [← flush_ok_iff] at hok
      rw [hok] at he
      exact Except.noConfusion he
    have he' : e = .writeFailed := by
      rw [flush_eq] at he
      rcases not_or.mp hnot with ⟨hb, hw⟩
      simp only [hb, if_false] at he
      simp only [Bool.not_eq_true] at hw
      simp [hw] at he
      exact he.symm
    rw [Close_eq]
    have hnot' : ¬(wr.buf = [] ∨ env.writeOk = true) := by
      simpa [List.isEmpty_iff] using hnot
    simp [hnot, hnot', he']

/-- A writer with a non-empty buffer on a device whose writes fail. -/
def c2Env : IOEnv := ⟨false, true, true, true⟩

def c2Writer : JournalWriter :=
  { buf := [1], bufCap := 8, lookups := fun _ => none,
    file := List.replicate 4 0, off := 0, uncmpSz := 0 }

/-- C2 counterexample: when the flush fails, `Close` returns immediately with
the flush error; neither `fsync` nor the file close is attempted, refuting
"all three shutdown steps are attempted regardless of earlier failures". -/
theorem claim2_counterexample :
    (Close c2Env c2Writer).1 = .error .writeFailed ∧
    (Close c2Env c2Writer).2.2 = [FOp.writeAt] ∧
    FOp.sync ∉ (Close c2Env c2Writer).2.2 ∧
    FOp.fclose ∉ (Close c2Env c2Writer).2.2 := by
  refine ⟨rfl, rfl, ?_, ?_⟩ <;> decide

theorem claim2_witness :
    (flush envOK c2Writer).1 = .ok () ∧
    FOp.sync ∈ (Close envOK c2Writer).2.2 ∧ FOp.fclose ∈ (Close envOK c2Writer).2.2 ∧
    (Close envOK c2Writer).1 = .ok () := by
  have h := (claim2_close_shutdown_steps envOK c2Writer).1 (by rw [flush_ok_iff]; right; rfl)
  exact ⟨by rw [flush_ok_iff]; right; rfl, h.1, h.2.1, h.2.2.2.2 rfl rfl⟩

/-! ## Claim C7 -/

/-- C7: the reservation policy of `getBytes` (for any writer satisfying the
Go slice invariant `len(buf) ≤ cap(buf)`): a request beyond the capacity
fails immediately with the oversize error and leaves the writer — hence
`current_size`, `off` and `buf` — unchanged; a request of exactly the
capacity succeeds, flushing first when the buffer is non-empty; and whenever
the request exceeds the remaining room but not the capacity, the buffer is
flushed first and the requested bytes are then the whole buffer tail. -/
theorem claim7_reservation_policy (env : IOEnv) (wr : JournalWriter) (n : Nat)
    (hinv : wr.buf.length ≤ wr.bufCap) :
    (n > wr.bufCap → getBytes env wr n = (.error (.oversizeRecord n wr.bufCap), wr, [])) ∧
    (env.writeOk = true → n = wr.bufCap →
      (getBytes env wr n).1 = .ok () ∧
      (wr.buf ≠ [] → (getBytes env wr n).2.1.off = wr.off + wr.buf.length)) ∧
    (env.writeOk = true → wr.bufCap - wr.buf.length < n → n ≤ wr.bufCap →
      (getBytes env wr n).1 = .ok () ∧
      (getBytes env wr n).2.1.off = wr.off + wr.buf.length ∧
      (getBytes env wr n).2.1.buf = List.replicate n 0) := by
  refine ⟨?_, ?_, ?_⟩
  · intro h1
    rw [getBytes_eq]
    simp [h1]
  · intro hw hn
    subst hn
    by_cases hb : wr.buf.isEmpty
    · have hb' : wr.buf = [] := by simpa using hb
      have h1 : ¬(wr.bufCap > wr.bufCap) := by omega
      have h2 : ¬(wr.bufCap > wr.bufCap - wr.buf.length) := by
        rw [hb']; simp
      rw [getBytes_eq]
      simp [h1, h2, hb']
    · have hb' : wr.buf ≠ [] := by simpa using hb
      have hl : 0 < wr.buf.length := List.length_pos.mpr hb'
      have h1 : ¬(wr.bufCap > wr.bufCap) := by omega
      have h2 : wr.bufCap > wr.bufCap - wr.buf.length := by omega
      rw [getBytes_eq]
      simp [h1, h2, hb, hw]
  · intro hw h2 h3
    have h1 : ¬(n > wr.bufCap) := by omega
    have hb : ¬wr.buf.isEmpty := by
      rw [List.isEmpty_iff]
      intro hcon
      rw [hcon] at h2
      simp at h2
      omega
    rw [getBytes_eq]
    simp [h1, h2, hb, hw]

/-- A small writer with a partially filled buffer for exercising C7. -/
def c7Writer : JournalWriter :=
  { buf := [1, 2], bufCap := 4, lookups := fun _ => none,
    file := List.replicate 8 0, off := 0, uncmpSz := 0 }

theorem claim7_witness :
    getBytes envOK c7Writer 9 = (.error (.oversizeRecord 9 4), c7Writer, []) ∧
    (getBytes envOK c7Writer 3).1 = .ok () ∧
    (getBytes envOK c7Writer 3).2.1.off = c7Writer.off + c7Writer.buf.length ∧
    (getBytes envOK c7Writer 3).2.1.buf = List.replicate 3 0 ∧
    (getBytes envOK c7Writer 4).1 = .ok () := by
  have h3 := claim7_reservation_policy envOK c7Writer 3 (by decide)
  have h9 := claim7_reservation_policy envOK c7Writer 9 (by decide)
  have h4 := claim7_reservation_policy envOK c7Writer 4 (by decide)
  have hc := h3.2.2 rfl (by decide) (by decide)
  exact ⟨h9.1 (by decide), hc.1, hc.2.1, hc.2.2, (h4.2.1 rfl rfl).1⟩

/-! ## Claim C9: step lemmas -/

theorem take_append_self (b e : List Byte) : (b ++ e).take b.length = b := by
  induction b with
  | nil => rfl
  | cons x xs ih => simp [ih]

theorem bufExtends_append (l e : List Byte) : bufExtends l (l ++ e) :=
  ⟨take_append_self l e, by simp⟩

theorem bufExtends_refl (l : List Byte) : bufExtends l l := by
  have h := bufExtends_append l []
  simpa using h

theorem bufExtends_nil (l : List Byte) : bufExtends [] l := ⟨rfl, by simp⟩

theorem take_sub_append (b : List Byte) (n : Nat) :
    (b ++ List.replicate n 0).take ((b ++ List.replicate n 0).length - n) = b := by
  have h : (b ++ List.replicate n 0).length - n = b.length := by simp
  rw [h]
  exact take_append_self b _

theorem flush_step (env : IOEnv) (wr : JournalWriter) :
    wr.off ≤ (flush env wr).2.1.off ∧
    (bufExtends wr.buf (flush env wr).2.1.buf ∨ FOp.writeAt ∈ (flush env wr).2.2) := by
  rw [flush_eq]
  by_cases hb : wr.buf.isEmpty
  · have hb' : wr.buf = [] := by simpa using hb
    refine ⟨by simp [hb'], Or.inl ?_⟩
    simp only [hb, if_true]
    rw [hb']
    exact bufExtends_nil []
  · have hb' : ¬wr.buf = [] := by simpa using hb
    by_cases hw : env.writeOk
    · exact ⟨by simp [hb', hw], Or.inr (by simp [hb', hw])⟩
    · exact ⟨by simp [hb', hw], Or.inr (by simp [hb', hw])⟩

theorem getBytes_step (env : IOEnv) (wr : JournalWriter) (n : Nat) :
    wr.off ≤ (getBytes env wr n).2.1.off ∧
    (bufExtends wr.buf (getBytes env wr n).2.1.buf ∨
      FOp.writeAt ∈ (getBytes env wr n).2.2) := by
  rw [getBytes_eq]
  by_cases h1 : n > wr.bufCap
  · exact ⟨by simp [h1], Or.inl (by simp [h1]; exact bufExtends_refl _)⟩
  · by_cases h2 : n > wr.bufCap - wr.buf.length
    · by_cases hb : wr.buf.isEmpty
      · have hb' : wr.buf = [] := by simpa using hb
        refine ⟨by simp [h1, h2, hb], Or.inl ?_⟩
        simp only [h1, h2, hb, if_true, if_false]
        rw [hb']
        exact bufExtends_nil _
      · by_cases hw : env.writeOk
        · exact ⟨by simp [h1, h2, hb, hw], Or.inr (by simp [h1, h2, hb, hw])⟩
        · exact ⟨by simp [h1, h2, hb, hw], Or.inr (by simp [h1, h2, hb, hw])⟩
    · refine ⟨by simp [h1, h2], Or.inl ?_⟩
      simp only [h1, h2, if_false]
      exact bufExtends_append _ _

theorem WriteChunk_step (env : IOEnv) (wr : JournalWriter) (cc : CompressedChunk) :
    wr.off ≤ (WriteChunk env wr cc).2.1.off ∧
    (bufExtends wr.buf (WriteChunk env wr cc).2.1.buf ∨
      FOp.writeAt ∈ (WriteChunk env wr cc).2.2) := by
  unfold WriteChunk
  rcases hg : getBytes env wr (chunkRecordSize cc).1 with ⟨r, wr1, tr⟩
  cases r with
  | error e =>
      have hst := getBytes_err_state env wr (chunkRecordSize cc).1 e (by rw [hg])
      rw [hg] at hst
      have hst' : wr1 = wr := hst
      subst hst'
      exact ⟨le_refl _, Or.inl (bufExtends_refl _)⟩
  | ok u =>
      have hspec0 := getBytes_ok_spec env wr (chunkRecordSize cc).1 (by rw [hg])
      rw [hg] at hspec0
      have hspec : (wr1.buf = wr.buf ++ List.replicate (chunkRecordSize cc).1 0 ∧
            wr1.off = wr.off ∧ tr = []) ∨
          (wr1.buf = List.replicate (chunkRecordSize cc).1 0 ∧
            wr1.off = wr.off + wr.buf.length ∧ tr = [FOp.writeAt] ∧ wr.buf ≠ []) := hspec0
      rcases hspec with ⟨hb, ho, ht⟩ | ⟨hb, ho, ht, _⟩
      · refine ⟨by simp [ho], Or.inl ?_⟩
        show bufExtends wr.buf
          (wr1.buf.take (wr1.buf.length - (chunkRecordSize cc).1) ++ writeChunkRecord cc)
        rw [hb, take_sub_append]
        exact bufExtends_append _ _
      · exact ⟨by simp [ho], Or.inr (by simp [ht])⟩

theorem WriteRootHash_step (env : IOEnv) (wr : JournalWriter) (root : Nat) :
    wr.off ≤ (WriteRootHash env wr root).2.1.off ∧
    (bufExtends wr.buf (WriteRootHash env wr root).2.1.buf ∨
      FOp.writeAt ∈ (WriteRootHash env wr root).2.2) := by
  unfold WriteRootHash
  rcases hg : getBytes env wr rootHashRecordSize with ⟨r, wr1, tr⟩
  cases r with
  | error e =>
      have hst := getBytes_err_state env wr rootHashRecordSize e (by rw [hg])
      rw [hg] at hst
      have hst' : wr1 = wr := hst
      subst hst'
      exact ⟨le_refl _, Or.inl (bufExtends_refl _)⟩
  | ok u =>
      have hspec0 := getBytes_ok_spec env wr rootHashRecordSize (by rw [hg])
      rw [hg] at hspec0
      have hspec : (wr1.buf = wr.buf ++ List.replicate rootHashRecordSize 0 ∧
            wr1.off = wr.off ∧ tr = []) ∨
          (wr1.buf = List.replicate rootHashRecordSize 0 ∧
            wr1.off = wr.off + wr.buf.length ∧ tr = [FOp.writeAt] ∧ wr.buf ≠ []) := hspec0
      have hoffle : wr.off ≤ wr1.off := by
        rcases hspec with ⟨_, ho, _⟩ | ⟨_, ho, _, _⟩ <;> simp [ho]
      rcases hf : flush env { wr1 with
          buf := wr1.buf.take (wr1.buf.length - rootHashRecordSize) ++
            writeRootHashRecord root } with ⟨r2, wr3, tr2⟩
      simp only [hf]
      cases r2 with
      | error e2 =>
          have hst := flush_err_state env _ e2 (by rw [hf])
          rw [hf] at hst
          have hst' : wr3 = { wr1 with
              buf := wr1.buf.take (wr1.buf.length - rootHashRecordSize) ++
                writeRootHashRecord root } := hst
          subst hst'
          refine ⟨hoffle, ?_⟩
          rcases hspec with ⟨hb, ho, ht⟩ | ⟨hb, ho, ht, _⟩
          · refine Or.inl ?_
            show bufExtends wr.buf
              (wr1.buf.take (wr1.buf.length - rootHashRecordSize) ++ writeRootHashRecord root)
            rw [hb, take_sub_append]
            exact bufExtends_append _ _
          · exact Or.inr (by simp [ht])
      | ok u2 =>
          have hfs := flush_step env { wr1 with
              buf := wr1.buf.take (wr1.buf.length - rootHashRecordSize) ++
                writeRootHashRecord root }
          rw [hf] at hfs
          have hoffle2 : wr1.off ≤ wr3.off := hfs.1
          by_cases hs : env.syncOk
          · refine ⟨by simp [hs]; omega, ?_⟩
            simp only [hs, if_true]
            rcases hfs.2 with hext | hmem
            · have hext' : bufExtends
                  (wr1.buf.take (wr1.buf.length - rootHashRecordSize) ++
                    writeRootHashRecord root) wr3.buf := hext
              rcases hspec with ⟨hb, ho, ht⟩ | ⟨hb, ho, ht, _⟩
              · refine Or.inl ?_
                rcases hext' with ⟨hta, hle⟩
                rw [hb, take_sub_append] at hta hle
                constructor
                · have h3 : wr.buf.length ≤ (wr.buf ++ writeRootHashRecord root).length := by
                    simp
                  calc wr3.buf.take wr.buf.length
                      = (wr3.buf.take ((wr.buf ++ writeRootHashRecord root).length)).take
                          wr.buf.length := by rw [List.take_take, min_eq_left h3]
                    _ = (wr.buf ++ writeRootHashRecord root).take wr.buf.length := by rw [hta]
                    _ = wr.buf := take_append_self _ _
                · calc wr.buf.length ≤ (wr.buf ++ writeRootHashRecord root).length := by simp
                    _ ≤ wr3.buf.length := hle
              · exact Or.inr (by simp [ht])
            · have hmem' : FOp.writeAt ∈ tr2 := hmem
              exact Or.inr (by simp [hmem'])
          · refine ⟨by simp [hs]; omega, ?_⟩
            simp only [hs, if_false]
            rcases hfs.2 with hext | hmem
            · have hext' : bufExtends
                  (wr1.buf.take (wr1.buf.length - rootHashRecordSize) ++
                    writeRootHashRecord root) wr3.buf := hext
              rcases hspec with ⟨hb, ho, ht⟩ | ⟨hb, ho, ht, _⟩
              · refine Or.inl ?_
                rcases hext' with ⟨hta, hle⟩
                rw [hb, take_sub_append] at hta hle
                constructor
                · have h3 : wr.buf.length ≤ (wr.buf ++ writeRootHashRecord root).length := by
                    simp
                  calc wr3.buf.take wr.buf.length
                      = (wr3.buf.take ((wr.buf ++ writeRootHashRecord root).length)).take
                          wr.buf.length := by rw [List.take_take, min_eq_left h3]
                    _ = (wr.buf ++ writeRootHashRecord root).take wr.buf.length := by rw [hta]
                    _ = wr.buf := take_append_self _ _
                · calc wr.buf.length ≤ (wr.buf ++ writeRootHashRecord root).length := by simp
                    _ ≤ wr3.buf.length := hle
              · exact Or.inr (by simp [ht])
            · have hmem' : FOp.writeAt ∈ tr2 := hmem
              exact Or.inr (by simp [hmem'])

theorem flush_ok_buf (env : IOEnv) (wr : JournalWriter)
    (h : (flush env wr).1 = .ok ()) : (flush env wr).2.1.buf = [] := by
  rw [flush_eq] at h ⊢
  by_cases hb : wr.buf.isEmpty
  · simp [hb]
  · by_cases hw : env.writeOk
    · simp [hb, hw]
    · simp [hb, hw] at h

theorem fileWriteAt_trace (env : IOEnv) (f p : List Byte) (o : Nat) (hp : p ≠ []) :
    (fileWriteAt env f p o).2 = [FOp.writeAt] := by
  unfold fileWriteAt
  have hpe : ¬p.isEmpty := by simpa [List.isEmpty_iff] using hp
  by_cases hw : env.writeOk <;> simp [hpe, hw]

theorem Close_step (env : IOEnv) (wr : JournalWriter) :
    wr.off ≤ (Close env wr).2.1.off ∧
    (bufExtends wr.buf (Close env wr).2.1.buf ∨ FOp.writeAt ∈ (Close env wr).2.2) := by
  rw [Close_eq]
  by_cases hc : wr.buf.isEmpty ∨ env.writeOk = true
  · simp only [hc, if_true]
    refine ⟨(flush_step env wr).1, ?_⟩
    by_cases hb : wr.buf.isEmpty
    · have hb' : wr.buf = [] := by simpa using hb
      refine Or.inl ?_
      rw [hb']
      exact bufExtends_nil _
    · exact Or.inr (by simp [hb])
  · simp only [hc, if_false]
    exact ⟨le_refl _, Or.inl (bufExtends_refl _)⟩

theorem Snapshot_step (env : IOEnv) (wr : JournalWriter) :
    wr.off ≤ (Snapshot env wr).2.1.off ∧
    (bufExtends wr.buf (Snapshot env wr).2.1.buf ∨
      FOp.writeAt ∈ (Snapshot env wr).2.2) := by
  unfold Snapshot
  rcases hf : flush env wr with ⟨r, wr1, tr⟩
  have hfs0 := flush_step env wr
  rw [hf] at hfs0
  have hfs : wr.off ≤ wr1.off ∧ (bufExtends wr.buf wr1.buf ∨ FOp.writeAt ∈ tr) := hfs0
  cases r with
  | error e => exact hfs
  | ok u => exact hfs

theorem Write_step (env : IOEnv) (wr : JournalWriter) (p : List Byte) :
    wr.off ≤ (Write env wr p).2.1.off ∧
    (bufExtends wr.buf (Write env wr p).2.1.buf ∨ FOp.writeAt ∈ (Write env wr p).2.2) := by
  unfold Write
  by_cases hp : p.length > wr.buf.length
  · simp only [hp, if_true]
    rcases hf : flush env wr with ⟨r, wr1, tr⟩
    have hfs0 := flush_step env wr
    rw [hf] at hfs0
    have hfs : wr.off ≤ wr1.off ∧ (bufExtends wr.buf wr1.buf ∨ FOp.writeAt ∈ tr) := hfs0
    cases r with
    | error e => exact hfs
    | ok u =>
        have hpne : p ≠ [] := by
          intro hcon
          rw [hcon] at hp
          simp at hp
        rcases hw2 : fileWriteAt env wr1.file p wr1.off with ⟨r2, tr2⟩
        simp only [hw2]
        have htr2 := fileWriteAt_trace env wr1.file p wr1.off hpne
        rw [hw2] at htr2
        have htr2' : tr2 = [FOp.writeAt] := htr2
        cases r2 with
        | error e2 => exact ⟨hfs.1, Or.inr (by simp [htr2'])⟩
        | ok f =>
            refine ⟨le_trans hfs.1 (Nat.le_add_right _ _), Or.inr (by simp [htr2'])⟩
  · simp only [hp, if_false]
    rcases hg : getBytes env wr p.length with ⟨r, wr1, tr⟩
    have hgs0 := getBytes_step env wr p.length
    rw [hg] at hgs0
    have hgs : wr.off ≤ wr1.off ∧ (bufExtends wr.buf wr1.buf ∨ FOp.writeAt ∈ tr) := hgs0
    cases r with
    | error e => exact hgs
    | ok u =>
        have hspec0 := getBytes_ok_spec env wr p.length (by rw [hg])
        rw [hg] at hspec0
        have hspec : (wr1.buf = wr.buf ++ List.replicate p.length 0 ∧
              wr1.off = wr.off ∧ tr = []) ∨
            (wr1.buf = List.replicate p.length 0 ∧
              wr1.off = wr.off + wr.buf.length ∧ tr = [FOp.writeAt] ∧ wr.buf ≠ []) := hspec0
        rcases hspec with ⟨hb, ho, ht⟩ | ⟨hb, ho, ht, _⟩
        · refine ⟨by simp [ho], Or.inl ?_⟩
          show bufExtends wr.buf (wr1.buf.take (wr1.buf.length - p.length) ++ p)
          rw [hb, take_sub_append]
          exact bufExtends_append _ _
        · exact ⟨by simp [ho], Or.inr (by simp [ht])⟩

theorem runOp_step (env : IOEnv) (wr : JournalWriter) (op : JOp) :
    wr.off ≤ (runOp env wr op).1.off ∧
    (bufExtends wr.buf (runOp env wr op).1.buf ∨ FOp.writeAt ∈ (runOp env wr op).2) := by
  cases op with
  | flushOp => exact flush_step env wr
  | reserve n => exact getBytes_step env wr n
  | wchunk cc => exact WriteChunk_step env wr cc
  | wroot a => exact WriteRootHash_step env wr a
  | closeOp => exact Close_step env wr
  | snapshotOp => exact Snapshot_step env wr
  | writeOp p => exact Write_step env wr p

theorem runOps_off_mono (env : IOEnv) (ops : List JOp) :
    ∀ wr : JournalWriter, wr.off ≤ (runOps env wr ops).off := by
  induction ops with
  | nil => intro wr; exact le_refl _
  | cons op ops ih =>
      intro wr
      have h1 := (runOp_step env wr op).1
      have h2 := ih (runOp env wr op).1
      show wr.off ≤ (runOps env (runOp env wr op).1 ops).off
      exact le_trans h1 h2

/-- C9: for every open writer, `off` never decreases under any operation or
sequence of operations; `buf` is emptied only by a flush — whenever the old
buffer is not an initial segment of the new one, the operation performed a
file write (flush) — and a successful flush advances `off` by exactly the
number of bytes it emptied, so the logical end `off + len(buf)` is preserved
by flush and increased exactly by the reserved length on a successful
reservation. -/
theorem claim9_offset_monotonicity (env : IOEnv) (wr : JournalWriter) (n : Nat)
    (op : JOp) (ops : List JOp) :
    ((flush env wr).1 = .ok () →
      (flush env wr).2.1.off = wr.off + wr.buf.length ∧
      (flush env wr).2.1.buf = [] ∧
      (flush env wr).2.1.offset = wr.offset) ∧
    (∀ e, (flush env wr).1 = .error e → (flush env wr).2.1 = wr) ∧
    ((getBytes env wr n).1 = .ok () →
      (getBytes env wr n).2.1.offset = wr.offset + n) ∧
    wr.off ≤ (runOp env wr op).1.off ∧
    (bufExtends wr.buf (runOp env wr op).1.buf ∨ FOp.writeAt ∈ (runOp env wr op).2) ∧
    wr.off ≤ (runOps env wr ops).off := by
  refine ⟨?_, flush_err_state env wr, getBytes_ok_offset env wr n,
    (runOp_step env wr op).1, (runOp_step env wr op).2, runOps_off_mono env ops wr⟩
  intro hok
  rw [flush_eq] at hok ⊢
  by_cases hb : wr.buf.isEmpty
  · have hb' : wr.buf = [] := by simpa using hb
    simp [JournalWriter.offset, hb']
  · by_cases hw : env.writeOk
    · have hb' : ¬wr.buf = [] := by simpa using hb
      simp [JournalWriter.offset, hb', hw]
    · simp [hb, hw] at hok

theorem claim9_witness :
    (flush envOK c7Writer).2.1.offset = c7Writer.offset ∧
    (getBytes envOK c7Writer 1).2.1.offset = c7Writer.offset + 1 ∧
    c7Writer.off ≤ (runOps envOK c7Writer [JOp.flushOp, JOp.reserve 1]).off := by
  have h := claim9_offset_monotonicity envOK c7Writer 1 JOp.flushOp
    [JOp.flushOp, JOp.reserve 1]
  exact ⟨(h.1 (by rfl)).2.2, h.2.2.1 (by rfl), h.2.2.2.2.2⟩

/-! ## Claim C1 -/

theorem runWrites_offset (env : IOEnv) (ops : List WOp) :
    ∀ wr wr' : JournalWriter, runWrites env wr ops = .ok wr' →
      wr'.offset = wr.offset + (ops.map encLen).sum := by
  induction ops with
  | nil =>
      intro wr wr' h
      unfold runWrites at h
      injection h with h
      subst h
      simp
  | cons op ops ih =>
      intro wr wr' h
      unfold runWrites at h
      cases op with
      | wc cc =>
          rcases hw : WriteChunk env wr cc with ⟨r, wr1, tr⟩
          rw [show runWrite env wr (WOp.wc cc) = WriteChunk env wr cc from rfl, hw] at h
          cases r with
          | error e => simp at h
          | ok u =>
              have hh : runWrites env wr1 ops = .ok wr' := h
              have hoff0 := (WriteChunk_ok_spec env wr cc (by rw [hw])).2.2.1
              rw [hw] at hoff0
              have hoff : wr1.offset = wr.offset + (chunkRecordSize cc).1 := hoff0
              have hrest := ih wr1 wr' hh
              rw [hrest, hoff]
              simp [encLen]
              omega
      | wrh a =>
          rcases hw : WriteRootHash env wr a with ⟨r, wr1, tr⟩
          rw [show runWrite env wr (WOp.wrh a) = WriteRootHash env wr a from rfl, hw] at h
          cases r with
          | error e => simp at h
          | ok u =>
              have hh : runWrites env wr1 ops = .ok wr' := h
              have hs0 := WriteRootHash_ok_spec env wr a (by rw [hw])
              rw [hw] at hs0
              have hbuf : wr1.buf = [] := hs0.1
              have hoff : wr1.off = wr.offset + rootHashRecordSize := hs0.2.1
              have hoffset : wr1.offset = wr.offset + rootHashRecordSize := by
                have hdef : wr1.offset = wr1.off + wr1.buf.length := rfl
                rw [hdef, hbuf, hoff]
                simp
              have hrest := ih wr1 wr' hh
              rw [hrest, hoffset]
              simp [encLen]
              omega

/-- C1 (amended): over any successful sequence of record writes, the logical
end-of-journal offset `off + len(buf)` — returned by the private `offset()`,
i.e. `current_offset` — grows by exactly the sum of the encoded lengths of
the records written.  The public `CurrentSize` operation returns only the
flushed length `off`, which never exceeds the logical end but omits records
still resident in the unflushed buffer, so it is not the sum of encoded
lengths while the buffer is non-empty. -/
theorem claim1_offset_is_sum_of_encoded_lengths (env : IOEnv) (wr : JournalWriter)
    (ops : List WOp) (wr' : JournalWriter) (h : runWrites env wr ops = .ok wr') :
    wr'.offset = wr.offset + (ops.map encLen).sum ∧
    CurrentSize wr' = wr'.off ∧
    CurrentSize wr' ≤ wr'.offset :=
  ⟨runWrites_offset env ops wr wr' h, rfl, Nat.le_add_right _ _⟩

/-- C1 counterexample: starting from a fresh writer, a single chunk write of
encoded length 29 succeeds without flushing; the sum of encoded lengths (and
the logical end `offset()`) is 29, but `CurrentSize` returns 0 — so
`CurrentSize` is neither the sum of encoded lengths nor `off + len(buf)`. -/
theorem claim1_counterexample :
    (runWrites envOK c6Writer [WOp.wc ⟨1, []⟩]).toOption.map CurrentSize = some 0 ∧
    (runWrites envOK c6Writer [WOp.wc ⟨1, []⟩]).toOption.map JournalWriter.offset =
      some 29 ∧
    (([WOp.wc ⟨1, []⟩]).map encLen).sum = 29 ∧
    (0 : Nat) ≠ 29 :=
  ⟨rfl, rfl, rfl, by decide⟩

theorem claim1_witness :
    runWrites envOK c6Writer [WOp.wc ⟨1, []⟩] =
      .ok (WriteChunk envOK c6Writer ⟨1, []⟩).2.1 ∧
    (WriteChunk envOK c6Writer ⟨1, []⟩).2.1.offset =
      c6Writer.offset + (([WOp.wc ⟨1, []⟩]).map encLen).sum ∧
    CurrentSize (WriteChunk envOK c6Writer ⟨1, []⟩).2.1 ≤
      (WriteChunk envOK c6Writer ⟨1, []⟩).2.1.offset := by
  have hrw : runWrites envOK c6Writer [WOp.wc ⟨1, []⟩] =
      .ok (WriteChunk envOK c6Writer ⟨1, []⟩).2.1 := by rfl
  have h := claim1_offset_is_sum_of_encoded_lengths envOK c6Writer
    [WOp.wc ⟨1, []⟩] _ hrw
  exact ⟨hrw, h.1, h.2.2⟩

/-! ## Claim C4 -/

/-- C4 (amended): for every readable journal (`off` within the file) and
every read range starting inside the logical content `[0, off + len(buf)]`
and extending past the logical end, `ReadAt` delivers exactly the bytes that
exist in `[o, current_offset)` — the drop-`o` suffix of the logical content —
as a short count, without error, and never delivers bytes from beyond the
logical end.  (The start offset must not exceed the logical end: beyond it
the Go code panics slicing `wr.buf`, rather than returning a zero count.) -/
theorem claim4_short_read_past_logical_end (env : IOEnv) (wr : JournalWriter)
    (o pLen : Nat) (henv : env.readOk = true) (hfile : wr.off ≤ wr.file.length)
    (ho : o ≤ wr.offset) (hpast : wr.offset < o + pLen) :
    ReadAt env wr pLen o = .ok ((logicalData wr).drop o) ∧
    ((logicalData wr).drop o).length = wr.offset - o := by
  have hlentake : (wr.file.take wr.off).length = wr.off := by
    rw [List.length_take]
    omega
  have hlog : (logicalData wr).length = wr.offset := by
    unfold logicalData JournalWriter.offset
    rw [List.length_append, hlentake]
  constructor
  · unfold ReadAt
    by_cases hlt : o < wr.off
    · simp only [hlt, if_true]
      have hfr : min pLen (wr.off - o) = wr.off - o := by
        unfold JournalWriter.offset at ho hpast
        omega
      rw [hfr]
      have hread : fileReadAt env wr.file (wr.off - o) o =
          .ok ((wr.file.drop o).take (wr.off - o)) := by
        unfold fileReadAt
        rw [if_pos ⟨henv, by omega⟩]
      rw [hread]
      have htb : wr.buf.take (pLen - (wr.off - o)) = wr.buf := by
        apply List.take_of_length_le
        unfold JournalWriter.offset at hpast
        omega
      rw [htb]
      unfold logicalData
      rw [List.drop_append_eq_append_drop]
      have hdn : o - (wr.file.take wr.off).length = 0 := by
        rw [hlentake]; omega
      rw [hdn, List.drop_zero]
      have hdt : (wr.file.take wr.off).drop o = (wr.file.drop o).take (wr.off - o) := by
        rw [List.drop_take]
      rw [hdt]
    · simp only [hlt, if_false]
      have hble : o - wr.off ≤ wr.buf.length := by
        unfold JournalWriter.offset at ho
        omega
      rw [if_neg (by omega)]
      have htk : (wr.buf.drop (o - wr.off)).take pLen = wr.buf.drop (o - wr.off) := by
        apply List.take_of_length_le
        rw [List.length_drop]
        unfold JournalWriter.offset at hpast
        omega
      rw [htk]
      unfold logicalData
      rw [List.drop_append_eq_append_drop]
      have hd1 : (wr.file.take wr.off).drop o = [] := by
        apply List.drop_eq_nil_of_le
        rw [hlentake]
        omega
      rw [hd1, hlentake]
      simp
  · rw [List.length_drop, hlog]

/-- A writer whose logical end is 1, for the panic counterexample. -/
def c4Writer : JournalWriter :=
  { buf := [7], bufCap := 4, lookups := fun _ => none, file := [], off := 0, uncmpSz := 0 }

/-- C4 counterexample: a read starting two bytes past a logical end of one
byte panics on the Go slice expression `wr.buf[off:]` instead of returning a
short count of zero with no error, refuting the claim for start offsets
beyond the logical end. -/
theorem claim4_counterexample :
    ReadAt envOK c4Writer 1 2 = .panic ∧
    ReadAt envOK c4Writer 1 2 ≠ .ok ((logicalData c4Writer).drop 2) := by
  exact ⟨rfl, by decide⟩

/-- A writer with three flushed bytes and a two-byte buffered tail. -/
def c4Straddle : JournalWriter :=
  { buf := [5, 6], bufCap := 8, lookups := fun _ => none,
    file := [1, 2, 3, 4], off := 3, uncmpSz := 0 }

theorem claim4_witness :
    ReadAt envOK c4Straddle 9 2 = .ok [3, 5, 6] ∧
    ((logicalData c4Straddle).drop 2).length = c4Straddle.offset - 2 := by
  have h := claim4_short_read_past_logical_end envOK c4Straddle 2 9 rfl
    (by decide) (by decide) (by decide)
  refine ⟨?_, h.2⟩
  have hv : (logicalData c4Straddle).drop 2 = [3, 5, 6] := by decide
  rw [h.1, hv]

/-! ## Claim C5 -/

theorem find?_append (p : journalRec → Bool) (l₁ l₂ : List journalRec) :
    (l₁ ++ l₂).find? p =
      match l₁.find? p with
      | some x => some x
      | none => l₂.find? p := by
  induction l₁ with
  | nil => simp
  | cons x xs ih =>
      by_cases hx : p x <;> simp [List.find?_cons, hx, ih]

theorem lastRootAddr_cons (r : journalRec) (rs : List journalRec) (d : Nat) :
    lastRootAddr (r :: rs) d =
      lastRootAddr rs (if isRootRec r then r.address else d) := by
  unfold lastRootAddr
  rw [List.reverse_cons, find?_append]
  cases hfind : rs.reverse.find? isRootRec with
  | some x => simp
  | none =>
      by_cases hr : isRootRec r <;> simp [List.find?_cons, hr]

theorem chunkUncmpSum_cons (r : journalRec) (rs : List journalRec) :
    chunkUncmpSum (r :: rs) =
      (if isChunkRec r then r.uncompressedPayloadSize else 0) + chunkUncmpSum rs := by
  unfold chunkUncmpSum
  by_cases hc : isChunkRec r <;> simp [List.filter_cons, hc]

theorem sumRecLens_cons (r : journalRec) (rs : List journalRec) :
    sumRecLens (r :: rs) = r.length + sumRecLens rs := by
  simp [sumRecLens]

theorem processJournal_loop_ok (recs : List journalRec) :
    ∀ (lk : Nat → Option recLookup) (usz last o : Nat), usz < M64 →
      recs.all knownKind = true →
      processJournalRecords PJState journalCallback (lk, usz, last) o recs =
        ((fun a => match lastChunkAt a o recs with
                   | some e => some e
                   | none => lk a,
          (usz + chunkUncmpSum recs) % M64,
          lastRootAddr recs last),
         o + sumRecLens recs, none) := by
  induction recs with
  | nil =>
      intro lk usz last o husz _
      have h2 : (usz + chunkUncmpSum []) % M64 = usz := by
        simp [chunkUncmpSum, Nat.mod_eq_of_lt husz]
      simp [processJournalRecords, sumRecLens, lastRootAddr, lastChunkAt, h2]
  | cons r rs ih =>
      intro lk usz last o husz hall
      rw [List.all_cons, Bool.and_eq_true] at hall
      obtain ⟨hkr, hall'⟩ := hall
      have hM : 0 < M64 := by
        unfold M64
        omega
      unfold processJournalRecords
      by_cases hc : r.kind = chunkJournalRecKind
      · have hcb : isChunkRec r = true := by
          simp [isChunkRec, hc]
        have hnr : isRootRec r = false := by
          simp [isRootRec, hc, rootHashJournalRecKind, chunkJournalRecKind]
        rw [show journalCallback (lk, usz, last) o r =
            .ok (fun a => if a = r.address then
                some ⟨o, r.length, r.payloadOffset⟩ else lk a,
              (usz + r.uncompressedPayloadSize) % M64, last) from by
          unfold journalCallback
          rw [if_pos hc]]
        show processJournalRecords PJState journalCallback
            (fun a => if a = r.address then
                some ⟨o, r.length, r.payloadOffset⟩ else lk a,
             (usz + r.uncompressedPayloadSize) % M64, last) (o + r.length) rs = _
        rw [ih _ _ _ _ (Nat.mod_lt _ hM) hall']
        simp only [Prod.mk.injEq]
        refine ⟨⟨?_, ?_, ?_⟩, ?_, trivial⟩
        · funext a
          show (match lastChunkAt a (o + r.length) rs with
                | some e => some e
                | none => if a = r.address then
                    some ⟨o, r.length, r.payloadOffset⟩ else lk a) =
               (match lastChunkAt a o (r :: rs) with
                | some e => some e
                | none => lk a)
          rw [show lastChunkAt a o (r :: rs) =
              (match lastChunkAt a (o + r.length) rs with
               | some e => some e
               | none => if isChunkRec r && r.address == a then
                   some ⟨o, r.length, journalRecPayloadOff⟩ else none) from rfl]
          cases lastChunkAt a (o + r.length) rs with
          | some e => rfl
          | none =>
              by_cases ha : a = r.address
              · rw [if_pos ha]
                rw [show (isChunkRec r && r.address == a) = true from by
                  simp [hcb, ha]]
                rfl
              · rw [if_neg ha]
                rw [show (isChunkRec r && r.address == a) = false from by
                  simp [hcb]
                  intro hcon
                  exact absurd hcon.symm ha]
                simp
        · rw [chunkUncmpSum_cons, hcb, if_pos rfl]
          rw [Nat.mod_add_mod]
          rw [Nat.add_assoc]
        · rw [lastRootAddr_cons, hnr]
          rfl
        · rw [sumRecLens_cons]
          omega
      · have hr : r.kind = rootHashJournalRecKind := by
          unfold knownKind isChunkRec isRootRec at hkr
          rw [Bool.or_eq_true, beq_iff_eq, beq_iff_eq] at hkr
          rcases hkr with hkr | hkr
          · exact absurd hkr hc
          · exact hkr
        have hcb : isChunkRec r = false := by
          simp [isChunkRec, hc]
        have hnr : isRootRec r = true := by
          simp [isRootRec, hr]
        rw [show journalCallback (lk, usz, last) o r = .ok (lk, usz, r.address) from by
          unfold journalCallback
          rw [if_neg hc, if_pos hr]]
        show processJournalRecords PJState journalCallback (lk, usz, r.address)
            (o + r.length) rs = _
        rw [ih _ _ _ _ husz hall']
        simp only [Prod.mk.injEq]
        refine ⟨⟨?_, ?_, ?_⟩, ?_, trivial⟩
        · funext a
          show (match lastChunkAt a (o + r.length) rs with
                | some e => some e
                | none => lk a) =
               (match lastChunkAt a o (r :: rs) with
                | some e => some e
                | none => lk a)
          rw [show lastChunkAt a o (r :: rs) =
              (match lastChunkAt a (o + r.length) rs with
               | some e => some e
               | none => if isChunkRec r && r.address == a then
                   some ⟨o, r.length, journalRecPayloadOff⟩ else none) from rfl]
          cases lastChunkAt a (o + r.length) rs with
          | some e => rfl
          | none =>
              rw [show (isChunkRec r && r.address == a) = false from by simp [hcb]]
              simp
        · rw [chunkUncmpSum_cons, hcb]
          simp
        · rw [lastRootAddr_cons, hnr]
          rfl
        · rw [sumRecLens_cons]
          omega

theorem processJournal_loop_err (good : List journalRec) :
    ∀ (lk : Nat → Option recLookup) (usz last o : Nat) (bad : journalRec)
      (rest : List journalRec), good.all knownKind = true → knownKind bad = false →
      ∃ st o', processJournalRecords PJState journalCallback (lk, usz, last) o
          (good ++ bad :: rest) = (st, o', some (.unknownRecordKind bad.kind)) := by
  induction good with
  | nil =>
      intro lk usz last o bad rest _ hbad
      unfold knownKind isChunkRec isRootRec at hbad
      rw [Bool.or_eq_false_iff, beq_eq_false_iff_ne, beq_eq_false_iff_ne] at hbad
      refine ⟨(lk, usz, last), o, ?_⟩
      show processJournalRecords PJState journalCallback (lk, usz, last) o
          (bad :: rest) = _
      unfold processJournalRecords
      rw [show journalCallback (lk, usz, last) o bad =
          .error (.unknownRecordKind bad.kind) from by
        unfold journalCallback
        rw [if_neg hbad.1, if_neg hbad.2]]
  | cons g good ih =>
      intro lk usz last o bad rest hall hbad
      rw [List.all_cons, Bool.and_eq_true] at hall
      obtain ⟨hkg, hall'⟩ := hall
      show ∃ st o', processJournalRecords PJState journalCallback (lk, usz, last) o
          (g :: (good ++ bad :: rest)) = (st, o', some (.unknownRecordKind bad.kind))
      unfold processJournalRecords
      unfold knownKind isChunkRec isRootRec at hkg
      rw [Bool.or_eq_true, beq_iff_eq, beq_iff_eq] at hkg
      by_cases hc : g.kind = chunkJournalRecKind
      · rw [show journalCallback (lk, usz, last) o g =
            .ok (fun a => if a = g.address then
                some ⟨o, g.length, g.payloadOffset⟩ else lk a,
              (usz + g.uncompressedPayloadSize) % M64, last) from by
          unfold journalCallback
          rw [if_pos hc]]
        exact ih _ _ _ _ bad rest hall' hbad
      · have hr : g.kind = rootHashJournalRecKind := by
          rcases hkg with hkg | hkg
          · exact absurd hkg hc
          · exact hkg
        rw [show journalCallback (lk, usz, last) o g = .ok (lk, usz, g.address) from by
          unfold journalCallback
          rw [if_neg hc, if_pos hr]]
        exact ih _ _ _ _ bad rest hall' hbad

/-- C5: `ProcessJournal`, run once after open, forward-scans the records from
offset 0.  When every record kind is recognized: each chunk record yields a
lookup entry `{offset, record length, payload offset}` (later records with
the same address winning), the uncompressed payload sizes of the chunk
records are added (mod `2^64`) to `uncmpSz`, the last root record's address
is the returned root (the zero hash when no root record was scanned), and the
offset where the valid records end — the sum of their encoded lengths —
becomes the writer's `off`.  If some record has an unrecognized kind, the
first such record makes the scan fail with the unknown-record-kind error and
the zero hash is returned. -/
theorem claim5_process_journal_replay (wr : JournalWriter) (recs : List journalRec)
    (husz : wr.uncmpSz < M64) :
    (recs.all knownKind = true →
      (ProcessJournal wr recs).1 = lastRootAddr recs 0 ∧
      (ProcessJournal wr recs).2.1 = none ∧
      (ProcessJournal wr recs).2.2.off = sumRecLens recs ∧
      (ProcessJournal wr recs).2.2.uncmpSz = (wr.uncmpSz + chunkUncmpSum recs) % M64 ∧
      (∀ a, (ProcessJournal wr recs).2.2.lookups a =
        match lastChunkAt a 0 recs with
        | some e => some e
        | none => wr.lookups a)) ∧
    (∀ good bad rest, recs = good ++ bad :: rest → good.all knownKind = true →
      knownKind bad = false →
      (ProcessJournal wr recs).1 = 0 ∧
      (ProcessJournal wr recs).2.1 = some (.unknownRecordKind bad.kind)) := by
  constructor
  · intro hall
    unfold ProcessJournal
    rw [processJournal_loop_ok recs wr.lookups wr.uncmpSz 0 0 husz hall]
    refine ⟨rfl, rfl, by simp, rfl, ?_⟩
    intro a
    rfl
  · intro good bad rest hrecs hgood hbad
    subst hrecs
    obtain ⟨⟨lk2, usz2, last2⟩, o', heq⟩ :=
      processJournal_loop_err good wr.lookups wr.uncmpSz 0 0 bad rest hgood hbad
    unfold ProcessJournal
    rw [heq]
    exact ⟨rfl, rfl⟩

/-- A chunk record and a root-hash record for concrete replay. -/
def c5Chunk : journalRec := { length := 30, kind := 2, address := 7, payload := [5] }

def c5Root : journalRec := { length := 29, kind := 1, address := 9, payload := [] }

theorem claim5_witness :
    (ProcessJournal (mkJournalWriter []) [c5Chunk, c5Root]).1 =
      lastRootAddr [c5Chunk, c5Root] 0 ∧
    (ProcessJournal (mkJournalWriter []) [c5Chunk, c5Root]).2.2.off =
      sumRecLens [c5Chunk, c5Root] ∧
    (ProcessJournal (mkJournalWriter []) [c5Chunk, c5Root]).2.2.lookups 7 =
      match lastChunkAt 7 0 [c5Chunk, c5Root] with
      | some e => some e
      | none => (mkJournalWriter []).lookups 7 := by
  have h := claim5_process_journal_replay (mkJournalWriter []) [c5Chunk, c5Root]
    (by decide) |>.1 (by decide)
  exact ⟨h.1, h.2.2.1, h.2.2.2.2 7⟩

/-! ## Claim C8 -/

theorem zeroFillBatches_eq (n : Nat) :
    zeroFillBatches n = List.replicate (n * zeroFillBatch) 0 := by
  induction n with
  | zero => rfl
  | succ m ih =>
      have hmul : (m + 1) * zeroFillBatch = m * zeroFillBatch + zeroFillBatch := by ring
      show zeroFillBatches m ++ List.replicate zeroFillBatch 0 = _
      rw [ih, hmul, List.replicate_add]

theorem zeroFill_total : numZeroBatches * zeroFillBatch = chunkJournalFileSize := by
  unfold numZeroBatches zeroFillBatch chunkJournalFileSize
  norm_num

/-- C8 (amended): `create` fails with the already-exists error whenever the
path exists — for a regular file and for a directory alike, because the code
aborts whenever `os.Stat` succeeds and never checks `IsDir` (there is no
separate is-directory error in `create`); on an absent path it constructs
the writer over a file zero-filled in fixed-size batches to exactly the
pre-allocated size; and `open` on an absent path returns
`(nil, exists=false, nil)` — absence is not an error. -/
theorem claim8_lifecycle (fs : Fs) (p : Nat) :
    (∀ c, fs p = some (.file c) → createJournalWriter fs p = .error .alreadyExists) ∧
    (fs p = some .dir → createJournalWriter fs p = .error .alreadyExists) ∧
    (fs p = none →
      ∃ wr fs', createJournalWriter fs p = .ok (wr, fs') ∧
        wr.file = List.replicate chunkJournalFileSize 0 ∧
        wr.off = 0 ∧ wr.buf = [] ∧ fs' p = some (.file wr.file)) ∧
    (fs p = none → openJournalWriter fs p = (none, false, none)) := by
  refine ⟨?_, ?_, ?_, ?_⟩
  · intro c h
    unfold createJournalWriter
    rw [h]
  · intro h
    unfold createJournalWriter
    rw [h]
  · intro h
    refine ⟨mkJournalWriter (zeroFillBatches numZeroBatches),
      (fun q => if q = p then some (.file (zeroFillBatches numZeroBatches)) else fs q),
      ?_, ?_, rfl, rfl, ?_⟩
    · unfold createJournalWriter
      rw [h]
    · show zeroFillBatches numZeroBatches = List.replicate chunkJournalFileSize 0
      rw [zeroFillBatches_eq, zeroFill_total]
    · simp [mkJournalWriter]
  · intro h
    unfold openJournalWriter
    rw [h]

/-- A file system holding a directory at the probed path. -/
def c8Dir : Fs := fun q => if q = 1 then some .dir else none

/-- C8 counterexample: `create` on a directory fails with the already-exists
error, not an is-directory error — the code aborts on any successful stat
without inspecting the entry kind. -/
theorem claim8_counterexample :
    createJournalWriter c8Dir 1 = .error .alreadyExists ∧
    createJournalWriter c8Dir 1 ≠ .error .isDirectory := by
  constructor
  · rfl
  · intro hcon
    have h1 : (Except.error JErr.alreadyExists : Except JErr (JournalWriter × Fs)) =
        Except.error JErr.isDirectory := by
      rw [show createJournalWriter c8Dir 1 =
        Except.error JErr.alreadyExists from rfl] at hcon
      exact hcon
    have h2 := Except.error.inj h1
    exact absurd h2 (by decide)

theorem claim8_witness :
    openJournalWriter fsEmpty 0 = (none, false, none) ∧
    createJournalWriter (fun q => if q = 1 then some (FsEntry.file []) else none) 1 =
      .error .alreadyExists ∧
    zeroFillBatches numZeroBatches = List.replicate chunkJournalFileSize 0 := by
  have h := claim8_lifecycle fsEmpty 0
  have h2 := claim8_lifecycle (fun q => if q = 1 then some (FsEntry.file []) else none) 1
  obtain ⟨wr, fs', hc, hf, -, -, -⟩ := h.2.2.1 rfl
  have hrfl : createJournalWriter fsEmpty 0 =
      .ok (mkJournalWriter (zeroFillBatches numZeroBatches),
        fun q => if q = 0 then some (.file (zeroFillBatches numZeroBatches))
          else fsEmpty q) := rfl
  rw [hc] at hrfl
  have hw := Except.ok.inj hrfl
  have hw1 : wr = mkJournalWriter (zeroFillBatches numZeroBatches) :=
    congrArg Prod.fst hw
  rw [hw1] at hf
  exact ⟨h.2.2.2 rfl, h2.1 [] (by simp), hf⟩

end ChunkJournal
